import Mathlib

/-!
Shallow embedding of `pkg/legal/legal.go` (package `legal` of
github.com/skreimeyer/Legal) and verification of its specification.

Modelling conventions:
* Go `float64` arithmetic is idealised as exact rational arithmetic over `ℚ`.
  The Go constant `math.Pi` is the IEEE-754 double nearest to π, which is the
  exact rational `884279719003555 / 281474976710656`; it is embedded verbatim
  as `ratPi`, so every comparison against `math.Pi/4`, `math.Pi/2`, ... in the
  source is mirrored exactly.
* Go `int` is embedded as `ℤ` (no claim in scope exercises 64-bit wraparound;
  `strconv.Atoi`'s explicit range failure IS modelled, in `goAtoi`).
* Fallible Go functions returning `(T, error)` are embedded as `Except String T`
  or `Option T`.
* Strings are Lean `String`s; the byte-indexed `strings.LastIndex` deletion in
  `Description.Describe` is modelled on the character list, which agrees with
  the byte-level operation because the deleted character `';'` is one byte and
  byte slicing at its index is exactly removal of that character.
-/

set_option allowUnsafeReducibility true in
attribute [semireducible] Rat.mul Rat.add Rat.sub Rat.div Rat.inv Rat.neg Rat.ofScientific

set_option maxRecDepth 16000

/-- The IEEE-754 double closest to π, i.e. the exact value of Go `math.Pi`
as a `float64`. -/
def ratPi : ℚ := 884279719003555 / 281474976710656

/-- Truncation toward zero, as performed by Go's `math.Mod` on the quotient. -/
def ratTrunc (q : ℚ) : ℤ :=
  if 0 ≤ q then Rat.floor q else -Rat.floor (-q)

/-- Go `math.Mod(x, y)`: the truncated-division remainder `x - y*trunc(x/y)`.
The result has the sign of `x` (it is NOT always in `[0, y)`). -/
def goMod (x y : ℚ) : ℚ := x - y * (ratTrunc (x / y) : ℚ)

/-- `Direction` enumeration from the source (`const` block, iota order,
"cardinal directions proceeding north counterclockwise"). -/
inductive Direction where
  | North | NorthEast | East | SouthEast | South | SouthWest | West | NorthWest
deriving DecidableEq, Repr

open Direction

/-- The integer value of a `Direction` constant (the Go `iota` value). -/
def dirIndex : Direction → ℤ
  | North => 0
  | NorthEast => 1
  | East => 2
  | SouthEast => 3
  | South => 4
  | SouthWest => 5
  | West => 6
  | NorthWest => 7

/-- `Direction.Describe`: the source indexes the fixed 8-element array
`dirNames` with the direction's value; on the eight enumeration constants this
is the following total match. -/
def Direction.describe : Direction → String
  | North => "NORTH"
  | NorthEast => "NORTHEAST"
  | East => "EAST"
  | SouthEast => "SOUTHEAST"
  | South => "SOUTH"
  | SouthWest => "SOUTHWEST"
  | West => "WEST"
  | NorthWest => "NORTHWEST"

/-- `DirectionFromAngle`: `angle = math.Mod(angle, 2*math.Pi)` followed by the
source's switch, whose cases are evaluated in order. -/
def directionFromAngle (angle : ℚ) : Direction :=
  let a := goMod angle (2 * ratPi)
  if a = 0 then North
  else if a < ratPi / 4 then NorthEast
  else if a = ratPi / 4 then East
  else if a < ratPi / 2 then SouthEast
  else if a = ratPi / 2 then South
  else if a < ratPi * 3 / 4 then SouthWest
  else if a = ratPi * 3 / 4 then West
  else NorthWest

/-- `Bearing` struct: `{primary Direction; deg, min int; sec float64;
secondary Direction}`. -/
structure Bearing where
  primary : Direction
  deg : ℤ
  min : ℤ
  sec : ℚ
  secondary : Direction
deriving DecidableEq, Repr

/-- Fixed-precision `%.*f` formatting of a nonnegative rational
(round to nearest, ties to even — the rounding Go's `strconv` applies). -/
def fmtFNonneg (prec : ℕ) (q : ℚ) : String :=
  let scale : ℚ := (10 : ℚ) ^ prec
  let m := q * scale
  let fl := Rat.floor m
  let r := m - (fl : ℚ)
  let n : ℤ :=
    if 1 / 2 < r then fl + 1
    else if r < 1 / 2 then fl
    else if fl % 2 = 0 then fl else fl + 1
  let p : ℤ := (10 : ℤ) ^ prec
  let ip := n / p
  let fp := (n % p).toNat
  let fs := toString fp
  let pad := String.mk (List.replicate (prec - fs.length) (Char.ofNat 48))
  toString ip ++ "." ++ pad ++ fs

/-- Go `fmt` `%.*f` on a float64 value (idealised to ℚ). -/
def fmtF (prec : ℕ) (q : ℚ) : String :=
  if q < 0 then "-" ++ fmtFNonneg prec (-q) else fmtFNonneg prec q

/-- The apostrophe character (minutes mark) used in bearing text. -/
def minuteMark : String := String.mk [Char.ofNat 39]

/-- `strings.ToUpper` on the ASCII strings in scope. -/
def strUpper (s : String) : String := String.mk (s.data.map Char.toUpper)

/-- `Bearing.Describe`: `fmt.Sprintf("%s %d°%d'%.2f\" %s", ...)`. -/
def bearingDescribe (b : Bearing) : String :=
  b.primary.describe ++ " " ++ toString b.deg ++ "°" ++ toString b.min ++
    minuteMark ++ fmtF 2 b.sec ++ "\" " ++ b.secondary.describe

/-- `NewBearing`: rejects any direction argument with odd enumeration value,
then range-checks `deg ∈ [0,90]`, `min ∈ [0,60]`, `sec ∈ [0,60]` (both ends
inclusive), exactly as the source's two `if` statements. -/
def newBearing (p snd : Direction) (d m : ℤ) (s : ℚ) : Except String Bearing :=
  if dirIndex p % 2 ≠ 0 ∨ dirIndex snd % 2 ≠ 0 then
    .error (p.describe ++ " - " ++ snd.describe ++ " are not valid directions for a bearing")
  else if d < 0 ∨ 90 < d ∨ m < 0 ∨ 60 < m ∨ s < 0 ∨ 60 < s then
    .error (toString d ++ " " ++ toString m ++ " " ++ fmtF 6 s ++ " is not a valid direction")
  else
    .ok ⟨p, d, m, s, snd⟩

/-- Whether an `Except` result is a success. -/
def exOk {ε α : Type} : Except ε α → Bool
  | .ok _ => true
  | .error _ => false

/-- The common tail of `Bearing.FromAngle`'s switch: given the selected
quadrant and the reduced angle, convert `theta*180/π` to truncated
degrees-minutes-seconds. -/
def dmsBearing (p snd : Direction) (theta : ℚ) : Bearing :=
  let total := theta * 180 / ratPi
  let degrees := Rat.floor total
  let totalMinutes := (total - (degrees : ℚ)) * 60
  let minutes := Rat.floor totalMinutes
  let seconds := (totalMinutes - (minutes : ℚ)) * 60
  ⟨p, degrees, minutes, seconds, snd⟩

/-- `Bearing.FromAngle`: reflect negative angles by `|θ|+π`, reduce by
`math.Mod(·, 2π)`, select the quadrant, then convert to DMS. -/
def bearingFromAngle (theta0 : ℚ) : Bearing :=
  let theta1 := if theta0 < 0 then |theta0| + ratPi else theta0
  let theta2 := goMod theta1 (ratPi * 2)
  if theta2 < ratPi / 2 then dmsBearing North East theta2
  else if theta2 < ratPi then dmsBearing South East (ratPi - theta2)
  else if theta2 < ratPi * 3 / 2 then dmsBearing South West (theta2 - ratPi)
  else dmsBearing North West (ratPi * 2 - theta2)

/-- `Bearing.ToAngle`:
`(start + rotation*(deg + min/60 + sec/3600)) / 180 * π`. -/
def toAngle (b : Bearing) : ℚ :=
  let start : ℚ := if b.primary = North then 0 else 180
  let rotation : ℚ :=
    if (b.primary = North ∧ b.secondary = East) ∨
       (b.primary = South ∧ b.secondary = West) then 1 else -1
  (start + rotation * ((b.deg : ℚ) + (b.min : ℚ) / 60 + b.sec / 3600)) / 180 * ratPi

/-- `LinearMete` struct: a straight boundary with bearing angle (radians),
distance and unit. -/
structure LinearMete where
  bearing : ℚ
  distance : ℚ
  unit : String
deriving DecidableEq, Repr

/-- `LinearMete.Describe`:
`"{Bearing.FromAngle(bearing).Describe()} A DISTANCE OF %.2f {UNIT}"`. -/
def linearDescribe (m : LinearMete) : String :=
  bearingDescribe (bearingFromAngle m.bearing) ++ " A DISTANCE OF " ++
    fmtF 2 m.distance ++ " " ++ strUpper m.unit

/-- `LinearMete.Preamble`: exact equality of the previous tangent against the
stored bearing angle. -/
def linearPreamble (m : LinearMete) (prevTan : ℚ) : String :=
  if prevTan = m.bearing then "A POINT OF TANGENCY" else "A POINT OF NON-TANGENCY"

/-- `Rotation`: `Clockwise = 1`, `CounterClockwise = -1`. -/
inductive Rotation where
  | clockwise
  | counterClockwise
deriving DecidableEq, Repr

/-- The numeric value of a `Rotation` (the Go constant's value). -/
def rotVal : Rotation → ℚ
  | .clockwise => 1
  | .counterClockwise => -1

/-- `ArcMete` struct: central angle (radians), radius, unit, entry tangent
angle, direction of travel. -/
structure ArcMete where
  centralAngle : ℚ
  radius : ℚ
  unit : String
  tangent : ℚ
  dir : Rotation
deriving DecidableEq, Repr

/-- `ArcMete.ChordAngle`: `tangent + dir*centralAngle/2`. -/
def chordAngle (a : ArcMete) : ℚ :=
  a.tangent + rotVal a.dir * a.centralAngle / 2

/-- `ArcMete.Concavity`: direction of
`tangent + dir*centralAngle/2 + dir*π/4`. -/
def concavity (a : ArcMete) : Direction :=
  directionFromAngle (a.tangent + rotVal a.dir * a.centralAngle / 2 + rotVal a.dir * ratPi / 4)

/-- `ArcMete.ArcLength`: `radius * centralAngle`. -/
def arcLength (a : ArcMete) : ℚ := a.radius * a.centralAngle

/-- `ArcMete.Describe`: note the leading direction word comes from
`DirectionFromAngle(am.ChordAngle())`. -/
def arcDescribe (a : ArcMete) : String :=
  (directionFromAngle (chordAngle a)).describe ++
    "ERLY ALONG SAID CURVE THROUGH A CENTRAL ANGLE OF " ++
    bearingDescribe (bearingFromAngle a.centralAngle) ++
    " AN ARC DISTANCE OF " ++ fmtF 2 (arcLength a) ++ " " ++ a.unit

/-- `ArcMete.Preamble`: tangent case and non-tangent case (with the radial
line bearing `tangent + dir*π/4 + π/2`). -/
def arcPreamble (a : ArcMete) (prevAngle : ℚ) : String :=
  if prevAngle = a.tangent then
    "THE BEGINNING OF A CURVE CONCAVE " ++ (concavity a).describe ++
      "ERLY, SAID CURVE HAS A RADIUS OF " ++ fmtF 2 a.radius ++ " " ++ a.unit
  else
    "THE BEGINNING OF A NON-TANGENT CURVE CONCAVE " ++ (concavity a).describe ++
      "ERLY, SAID CURVE HAS A RADIUS OF " ++ fmtF 2 a.radius ++ " " ++ a.unit ++
      ", TO WHICH A RADIAL LINE BEARS " ++
      bearingDescribe (bearingFromAngle (a.tangent + rotVal a.dir * ratPi / 4 + ratPi / 2))

/-- The `Mete` interface has exactly the two implementations `LinearMete`
and `ArcMete`; embedded as a closed sum. -/
inductive Mete where
  | linear : LinearMete → Mete
  | arc : ArcMete → Mete
deriving DecidableEq, Repr

/-- Dynamic dispatch of `Describe` on the `Mete` interface. -/
def Mete.describe : Mete → String
  | .linear m => linearDescribe m
  | .arc a => arcDescribe a

/-- Dynamic dispatch of `Preamble` on the `Mete` interface. -/
def Mete.preamble : Mete → ℚ → String
  | .linear m, t => linearPreamble m t
  | .arc a, t => arcPreamble a t

/-- Dynamic dispatch of `Tangent` on the `Mete` interface. -/
def Mete.tangent : Mete → ℚ
  | .linear m => m.bearing
  | .arc a => a.tangent

/-- Fractional decimal digits of `r/d`, produced digit by digit until the
remainder vanishes (fuel-bounded). -/
def fracDigits : ℕ → ℕ → ℕ → String
  | 0, _, _ => ""
  | _, 0, _ => ""
  | fuel + 1, r, d => toString (r * 10 / d) ++ fracDigits fuel (r * 10 % d) d

/-- Rendering of a float64 by Go's default `%v` verb, as used by the
`{{.Area}}` template action: integral values print with no decimal point,
fractional values with their (terminating) decimal expansion. Go's
shortest-representation formatting of non-terminating binary fractions is
idealised to the exact expansion. -/
def fmtFloatV (q : ℚ) : String :=
  if q.den = 1 then toString q.num
  else
    (if q.num < 0 then "-" else "") ++ toString (q.num.natAbs / q.den) ++ "." ++
      fracDigits 60 (q.num.natAbs % q.den) q.den

/-- `Description` struct. -/
structure Description where
  Kind : String
  Lot : String
  Block : String
  Subdivision : String
  City : String
  County : String
  State : String
  Start : Direction
  Commencement : Bool
  Area : ℚ
  Unit : String
  Metes : List Mete
deriving DecidableEq, Repr

/-- One iteration of the template's
`{{range $i, $m := .Metes}}{{if ne $i 0}}TO {{$m.Preamble $prevtan}}; {{end}}THENCE {{$m.Describe}} {{end}}`
loop body, at index `i` with the loop variable `$prevtan`. -/
def meteClause (prevtan : ℚ) (i : ℕ) (m : Mete) : String :=
  (if i ≠ 0 then "TO " ++ m.preamble prevtan ++ "; " else "") ++
    "THENCE " ++ m.describe ++ " "

/-- The template's metes loop. `$prevtan` is declared once (`{{$prevtan := 0.0}}`)
and is only ever read inside the loop body, never reassigned, so it is threaded
through the recursion unchanged. -/
def metesText (prevtan : ℚ) (i : ℕ) : List Mete → String
  | [] => ""
  | m :: rest => meteClause prevtan i m ++ metesText prevtan (i + 1) rest

/-- The template text before the corner clause's `"; "` separator
(everything up to and including `CORNER OF SAID LOT{{.Lot}}`). -/
def cornerHead (d : Description) : String :=
  d.Kind ++ " DESCRIPTION:\n\nA PART OF " ++
    (if d.Lot ≠ "" then "LOT " ++ d.Lot ++ ", " else "") ++
    (if d.Block ≠ "" then "BLOCK " ++ d.Block ++ ", " else "") ++
    d.Subdivision ++ " TO " ++
    (if d.City ≠ "" then "THE CITY OF " ++ d.City ++ ", " else "") ++
    d.County ++ " COUNTY, " ++ d.State ++
    ", BEING MORE PARTICULARLY DESCRIBED AS FOLLOWS:\n" ++
    (if d.Commencement then "COMMENCING " else "BEGINNING ") ++
    " AT THE " ++ d.Start.describe ++ " CORNER OF SAID LOT" ++
    (if d.Lot ≠ "" then " " ++ d.Lot else "")

/-- The template text after the metes loop. -/
def closingText (d : Description) : String :=
  "TO THE POINT OF BEGINNING, CONTAINING " ++ fmtFloatV d.Area ++ " " ++
    d.Unit ++ " MORE OR LESS."

/-- The fully assembled template output of `Description.Describe`, before
post-processing (`result.String()` in the source). -/
def rawDescribe (d : Description) : String :=
  cornerHead d ++ "; " ++ metesText 0 0 d.Metes ++ closingText d

/-- Index of the last occurrence of `c`, or `none` (`strings.LastIndex`). -/
def lastIdxOf (c : Char) : List Char → Option ℕ
  | [] => none
  | a :: as =>
    match lastIdxOf c as with
    | some i => some (i + 1)
    | none => if a = c then some 0 else none

/-- The post-processing step of `Description.Describe`:
`legal[:lastSemi] + legal[lastSemi+1:]` when a `';'` exists. -/
def removeLastSemi (s : String) : String :=
  match lastIdxOf (Char.ofNat 59) s.data with
  | none => s
  | some i => String.mk (s.data.take i ++ s.data.drop (i + 1))

/-- `Description.Describe` (the template never errors on this data model,
so the `error` result of the source is always `nil`). -/
def describe (d : Description) : String :=
  removeLastSemi (rawDescribe d)

/-- Whitespace recognised by `unicode.IsSpace` (the Latin-1 range; the rarer
non-Latin-1 Unicode space code points do not occur in the inputs modelled). -/
def isGoSpace (c : Char) : Bool :=
  c = ' ' ∨ c = '\t' ∨ c = '\n' ∨ c = Char.ofNat 11 ∨ c = Char.ofNat 12 ∨
    c = '\r' ∨ c = Char.ofNat 133 ∨ c = Char.ofNat 160

/-- `strings.ToUpper(strings.Join(strings.Fields(s), ""))`: removing every
whitespace rune then uppercasing (ASCII inputs). -/
def preprocessBearingStr (s : String) : List Char :=
  (s.data.filter fun c => ¬ isGoSpace c).map Char.toUpper

/-- ASCII decimal digit test (`\d` of the regex). -/
def isDigit (c : Char) : Bool := '0' ≤ c ∧ c ≤ '9'

/-- A captured match of the bearing regular expression
`(?P<primary>[N|S])\D*(?P<deg>\d+)[D|°](?P<min>\d+)[M|'](?P<sec>\d+\.?\d*)[S|"](?P<secondary>[E|W])`.
Note each character class an author intended as an alternation also matches a
literal `'|'`. -/
structure BearingMatch where
  primary : Char
  degStr : List Char
  minStr : List Char
  secStr : List Char
  secondary : Char
deriving DecidableEq, Repr

/-- `\d+`: a nonempty maximal digit run (the following regex elements match no
digit, so the greedy run is the only viable one). -/
def digits1 (l : List Char) : Option (List Char × List Char) :=
  let ds := l.takeWhile isDigit
  if ds.isEmpty then none else some (ds, l.drop ds.length)

/-- One character from a regex character class (the classes of this pattern
each also contain the literal `\x7c` bar). -/
def expectClass (cs : List Char) (l : List Char) : Option (Char × List Char) :=
  match l with
  | [] => none
  | c :: rest => if c ∈ cs then some (c, rest) else none

/-- Match the regex at the very start of `l`.  For this pattern, greedy
matching is deterministic: `\D*` cannot cross a digit, each `\d+`/`\d*` is
followed by a non-digit element, and `\.?` is followed by `[S|"]` which
excludes `\'.\'`, so no backtracking alternative can succeed when the greedy
choice fails. -/
def matchBearingAt (l : List Char) : Option BearingMatch := do
  let (c1, l1) ← expectClass ['N', '|', 'S'] l
  let (dg, l2) ← digits1 (l1.dropWhile fun x => ¬ isDigit x)
  let (_, l3) ← expectClass ['D', '|', '°'] l2
  let (mn, l4) ← digits1 l3
  let (_, l5) ← expectClass ['M', '|', Char.ofNat 39] l4
  let (s1, l6) ← digits1 l5
  let dotted := l6.head? = some '.'
  let l7 := if dotted then l6.drop 1 else l6
  let s2 := l7.takeWhile isDigit
  let l8 := l7.drop s2.length
  let (_, l9) ← expectClass ['S', '|', '"'] l8
  let (c5, _) ← expectClass ['E', '|', 'W'] l9
  pure ⟨c1, dg, mn, s1 ++ (if dotted then ['.'] else []) ++ s2, c5⟩

/-- `regexp.FindStringSubmatch`: the unanchored leftmost match — try each
start position from the left. -/
def findBearingMatch : List Char → Option BearingMatch
  | [] => none
  | c :: rest =>
    match matchBearingAt (c :: rest) with
    | some m => some m
    | none => findBearingMatch rest

/-- `DirectionFromString`: trim space, uppercase, look up in the
name/abbreviation map. -/
def directionFromString (s : String) : Option Direction :=
  let t := String.mk
    ((((s.data.dropWhile isGoSpace).reverse.dropWhile isGoSpace).reverse).map Char.toUpper)
  if t = "NORTH" ∨ t = "N" then some North
  else if t = "NORTHEAST" ∨ t = "NE" then some NorthEast
  else if t = "EAST" ∨ t = "E" then some East
  else if t = "SOUTHEAST" ∨ t = "SE" then some SouthEast
  else if t = "SOUTH" ∨ t = "S" then some South
  else if t = "SOUTHWEST" ∨ t = "SW" then some SouthWest
  else if t = "WEST" ∨ t = "W" then some West
  else if t = "NORTHWEST" ∨ t = "NW" then some NorthWest
  else none

/-- Numeric value of a digit run. -/
def digitsVal : List Char → ℕ
  | [] => 0
  | c :: rest => (c.toNat - 48) * 10 ^ rest.length + digitsVal rest

/-- `strconv.Atoi` on the digit-run captures of the regex: all-digit strings
parse to their value unless they exceed the 64-bit int range (`ErrRange`).
(The sign/base/underscore features of `Atoi` are unreachable from `\d+`.) -/
def goAtoi (l : List Char) : Option ℤ :=
  if l.isEmpty ∨ ¬ l.all isDigit then none
  else if (digitsVal l : ℤ) ≤ 9223372036854775807 then some ((digitsVal l : ℤ))
  else none

/-- Shape of the `sec` capture `\d+\.?\d*`. -/
def secShape (l : List Char) : Bool :=
  let ds := l.takeWhile isDigit
  let rest := l.drop ds.length
  !ds.isEmpty && (rest.isEmpty || ((rest.head? == some '.') && (rest.drop 1).all isDigit))

/-- Numeric value of a `\d+\.?\d*` capture. -/
def secVal (l : List Char) : ℚ :=
  let ds := l.takeWhile isDigit
  let fs := (l.drop ds.length).drop 1
  (digitsVal ds : ℚ) + (digitsVal fs : ℚ) / (10 : ℚ) ^ fs.length

/-- The least real value that rounds (to nearest, ties to even) beyond the
largest finite float64, namely `2^1024 - 2^970`. -/
def floatOverflowMin : ℚ := 179769313486231580793728971405303415079934132710037826936173778980444968292764750946649017977587207096330286416692887910946555547851940402630657488671505820681908902000708383676273854845817711531764475730270069855571366959622842914819860834936475292719074168444365510704342711559699508093042880177904174497792

/-- `strconv.ParseFloat` on the `sec` capture, idealised to the exact rational
value; the decimal overflows to `±Inf` (an `ErrRange` failure) from
`floatOverflowMin` upward. -/
def goParseFloat (l : List Char) : Option ℚ :=
  if secShape l then
    if secVal l < floatOverflowMin then some (secVal l) else none
  else none

/-- `Bearing.FromString`: preprocess, find the leftmost regex match, then
convert the five captures, failing on the first bad capture. -/
def bearingFromString (s : String) : Except String Bearing :=
  match findBearingMatch (preprocessBearingStr s) with
  | none => .error "Invalid bearing string: insufficient number of matches"
  | some m =>
    match directionFromString (String.mk [m.primary]) with
    | none => .error ("Invalid primary direction: " ++ String.mk [m.primary])
    | some primary =>
      match goAtoi m.degStr with
      | none => .error ("Invalid degrees " ++ String.mk m.degStr)
      | some deg =>
        match goAtoi m.minStr with
        | none => .error ("Invalid minutes " ++ String.mk m.minStr)
        | some min =>
          match goParseFloat m.secStr with
          | none => .error ("Invalid seconds " ++ String.mk m.secStr)
          | some sec =>
            match directionFromString (String.mk [m.secondary]) with
            | none => .error ("Invalid secondary direction " ++ String.mk [m.secondary])
            | some secondary => .ok ⟨primary, deg, min, sec, secondary⟩

deriving instance DecidableEq for Except

theorem ratPi_pos : 0 < ratPi := by norm_num [ratPi]

theorem ratPi_lt : ratPi < 22 / 7 := by norm_num [ratPi]

theorem ratFloor_eq_intFloor (q : ℚ) : (Rat.floor q : ℤ) = ⌊q⌋ := rfl

theorem goMod_eq_self {a y : ℚ} (h0 : 0 ≤ a) (hy : 0 < y) (hlt : a < y) :
    goMod a y = a := by
  unfold goMod ratTrunc
  rw [if_pos (div_nonneg h0 hy.le), ratFloor_eq_intFloor]
  have hf : ⌊a / y⌋ = 0 := by
    rw [Int.floor_eq_zero_iff]
    exact ⟨div_nonneg h0 hy.le, (div_lt_one hy).mpr hlt⟩
  rw [hf]
  push_cast
  ring

theorem goMod_bounds {a y : ℚ} (h0 : 0 ≤ a) (hy : 0 < y) :
    0 ≤ goMod a y ∧ goMod a y < y := by
  unfold goMod ratTrunc
  rw [if_pos (div_nonneg h0 hy.le), ratFloor_eq_intFloor]
  have h1 : (⌊a / y⌋ : ℚ) ≤ a / y := Int.floor_le _
  have h2 : a / y < (⌊a / y⌋ : ℚ) + 1 := Int.lt_floor_add_one _
  constructor
  · have := mul_le_mul_of_nonneg_left h1 hy.le
    rw [mul_div_cancel₀ _ hy.ne'] at this
    linarith
  · have := mul_lt_mul_of_pos_left h2 hy
    rw [mul_div_cancel₀ _ hy.ne'] at this
    nlinarith

theorem goMod_nonpos {a y : ℚ} (ha : a < 0) (hy : 0 < y) : goMod a y ≤ 0 := by
  unfold goMod ratTrunc
  have hq : a / y < 0 := div_neg_of_neg_of_pos ha hy
  rw [if_neg (by linarith), ratFloor_eq_intFloor]
  have h1 : (⌊-(a / y)⌋ : ℚ) ≤ -(a / y) := Int.floor_le _
  have := mul_le_mul_of_nonneg_left h1 hy.le
  rw [mul_neg, mul_div_cancel₀ _ hy.ne'] at this
  push_cast
  nlinarith

/-- C3 counterexample: `NewBearing(East, North, 0, 0, 0)` — a primary not in
{N,S} and a secondary not in {E,W} — is accepted, contradicting both halves
of the claim. -/
theorem c3_counterexample :
    newBearing East North 0 0 0 = .ok ⟨East, 0, 0, 0, North⟩ ∧
    ¬ (East = North ∨ East = South) ∧ ¬ (North = East ∨ North = West) := by
  decide

/-- C3 (amended): every Bearing successfully constructed by NewBearing has
primary and secondary each among the four cardinal directions (even
enumeration value), and NewBearing returns an error whenever either argument
is intercardinal (odd enumeration value). -/
theorem c3_newBearing_cardinal (p snd : Direction) (d m : ℤ) (s : ℚ) :
    (∀ b, newBearing p snd d m s = .ok b →
      (b.primary = North ∨ b.primary = East ∨ b.primary = South ∨ b.primary = West) ∧
      (b.secondary = North ∨ b.secondary = East ∨ b.secondary = South ∨ b.secondary = West)) ∧
    ((dirIndex p % 2 ≠ 0 ∨ dirIndex snd % 2 ≠ 0) →
      exOk (newBearing p snd d m s) = false) := by
  constructor
  · intro b hb
    unfold newBearing at hb
    by_cases h1 : dirIndex p % 2 ≠ 0 ∨ dirIndex snd % 2 ≠ 0
    · rw [if_pos h1] at hb
      exact absurd hb (by simp)
    · rw [if_neg h1] at hb
      by_cases h2 : d < 0 ∨ 90 < d ∨ m < 0 ∨ 60 < m ∨ s < 0 ∨ 60 < s
      · rw [if_pos h2] at hb
        exact absurd hb (by simp)
      · rw [if_neg h2] at hb
        push_neg at h1
        obtain ⟨hp, hs⟩ := h1
        cases hb
        constructor
        · cases p <;> simp_all [dirIndex]
        · cases snd <;> simp_all [dirIndex]
  · intro h
    unfold newBearing exOk
    rw [if_pos h]

/-- Witness for the amended C3 at concrete inputs: `(North, East)` is
accepted cardinal, `(NorthEast, East)` is rejected. -/
theorem c3_newBearing_cardinal_witness :
    ((North = North ∨ North = East ∨ North = South ∨ North = West) ∧
      (East = North ∨ East = East ∨ East = South ∨ East = West)) ∧
    exOk (newBearing NorthEast East 1 2 3) = false := by
  constructor
  · have h := (c3_newBearing_cardinal North East 0 0 0).1 ⟨North, 0, 0, 0, East⟩ (by decide)
    exact h
  · exact (c3_newBearing_cardinal NorthEast East 1 2 3).2 (by decide)

/-- C4: for a valid primary/secondary pair, NewBearing succeeds iff
`deg ∈ [0,90]`, `min ∈ [0,60]`, `sec ∈ [0,60]` (inclusive bounds); in
particular (90,60,60) is accepted while deg=91, min=61 and sec=-1 are
rejected. -/
theorem c4_newBearing_ranges (p snd : Direction)
    (hp : p = North ∨ p = South) (hs : snd = East ∨ snd = West)
    (d m : ℤ) (s : ℚ) :
    (exOk (newBearing p snd d m s) = true ↔
      (0 ≤ d ∧ d ≤ 90 ∧ 0 ≤ m ∧ m ≤ 60 ∧ 0 ≤ s ∧ s ≤ 60)) ∧
    exOk (newBearing p snd 90 60 60) = true ∧
    exOk (newBearing p snd 91 0 0) = false ∧
    exOk (newBearing p snd 0 61 0) = false ∧
    exOk (newBearing p snd 0 0 (-1)) = false := by
  have hdir : ¬ (dirIndex p % 2 ≠ 0 ∨ dirIndex snd % 2 ≠ 0) := by
    rcases hp with h | h <;> rcases hs with h2 | h2 <;> subst h <;> subst h2 <;> decide
  refine ⟨?_, ?_, ?_, ?_, ?_⟩
  · unfold newBearing exOk
    rw [if_neg hdir]
    by_cases hr : d < 0 ∨ 90 < d ∨ m < 0 ∨ 60 < m ∨ s < 0 ∨ 60 < s
    · rw [if_pos hr]
      simp only [Bool.false_eq_true, false_iff]
      intro hcon
      obtain ⟨h1, h2, h3, h4, h5, h6⟩ := hcon
      rcases hr with h | h | h | h | h | h <;> linarith
    · rw [if_neg hr]
      push_neg at hr
      simp only [true_iff]
      exact ⟨hr.1, hr.2.1, hr.2.2.1, hr.2.2.2.1, hr.2.2.2.2.1, hr.2.2.2.2.2⟩
  all_goals
    rcases hp with h | h <;> rcases hs with h2 | h2 <;> subst h <;> subst h2 <;> decide

/-- Witness for C4 at the concrete quadrant (North, East) and the boundary
component values. -/
theorem c4_newBearing_ranges_witness :
    (exOk (newBearing North East 90 60 60) = true ↔
      (0 ≤ (90:ℤ) ∧ (90:ℤ) ≤ 90 ∧ 0 ≤ (60:ℤ) ∧ (60:ℤ) ≤ 60 ∧
        0 ≤ (60:ℚ) ∧ (60:ℚ) ≤ 60)) ∧
    exOk (newBearing North East 90 60 60) = true ∧
    exOk (newBearing North East 91 0 0) = false ∧
    exOk (newBearing North East 0 61 0) = false ∧
    exOk (newBearing North East 0 0 (-1)) = false :=
  c4_newBearing_ranges North East (Or.inl rfl) (Or.inl rfl) 90 60 60

/-- C5 counterexample: S 90°0'0" W is a bearing accepted by NewBearing, yet
its angle is `3π/2`, which is not in `[-π, π]`. -/
theorem c5_counterexample :
    newBearing South West 90 0 0 = .ok ⟨South, 90, 0, 0, West⟩ ∧
    toAngle ⟨South, 90, 0, 0, West⟩ = ratPi * 3 / 2 ∧
    ¬ toAngle ⟨South, 90, 0, 0, West⟩ ≤ ratPi := by
  decide

theorem piMulBound {c : ℚ} (h1 : -1 < c) (h2 : c < 2) :
    -ratPi < ratPi * c ∧ ratPi * c < 2 * ratPi := by
  constructor <;> nlinarith [ratPi_pos]

/-- C5 (amended): for every in-range bearing with primary in {N,S} and
secondary in {E,W}, ToAngle equals `base + sign*(deg + min/60 + sec/3600)*π/180`
with base 0 (N) or π (S) and sign +1 for (N,E)/(S,W) else −1; the returned
value lies in `(-π, 2π)` (for (S,W) bearings with nonzero magnitude it
exceeds π). -/
theorem c5_toAngle_formula (b : Bearing)
    (hp : b.primary = North ∨ b.primary = South)
    (hs : b.secondary = East ∨ b.secondary = West)
    (hd0 : 0 ≤ b.deg) (hd : b.deg ≤ 90) (hm0 : 0 ≤ b.min) (hm : b.min ≤ 60)
    (hs0 : 0 ≤ b.sec) (hs60 : b.sec ≤ 60) :
    toAngle b =
      (if b.primary = North then 0 else ratPi) +
        (if (b.primary = North ∧ b.secondary = East) ∨
            (b.primary = South ∧ b.secondary = West) then 1 else -1) *
          (((b.deg : ℚ) + (b.min : ℚ) / 60 + b.sec / 3600) * (ratPi / 180)) ∧
    -ratPi < toAngle b ∧ toAngle b < 2 * ratPi := by
  have hd0q : (0 : ℚ) ≤ (b.deg : ℚ) := by exact_mod_cast hd0
  have hdq : (b.deg : ℚ) ≤ 90 := by exact_mod_cast hd
  have hm0q : (0 : ℚ) ≤ (b.min : ℚ) := by exact_mod_cast hm0
  have hmq : (b.min : ℚ) ≤ 60 := by exact_mod_cast hm
  have hx0 : (0 : ℚ) ≤ (b.deg : ℚ) + (b.min : ℚ) / 60 + b.sec / 3600 := by linarith
  have hx1 : (b.deg : ℚ) + (b.min : ℚ) / 60 + b.sec / 3600 ≤ 5461 / 60 := by linarith
  rcases hp with h | h <;> rcases hs with h2 | h2 <;>
    unfold toAngle <;> rw [h, h2] <;> simp only [reduceCtorEq, and_false, and_self,
      false_and, and_true, false_or, or_false, if_true, if_false, reduceIte]
  · refine ⟨by ring, ?_⟩
    have hb := piMulBound (c := ((b.deg : ℚ) + (b.min : ℚ) / 60 + b.sec / 3600) / 180)
      (by linarith) (by linarith)
    constructor <;> nlinarith [hb.1, hb.2]
  · refine ⟨by ring, ?_⟩
    have hb := piMulBound (c := -(((b.deg : ℚ) + (b.min : ℚ) / 60 + b.sec / 3600) / 180))
      (by linarith) (by linarith)
    constructor <;> nlinarith [hb.1, hb.2]
  · refine ⟨by ring, ?_⟩
    have hb := piMulBound (c := (180 - ((b.deg : ℚ) + (b.min : ℚ) / 60 + b.sec / 3600)) / 180)
      (by linarith) (by linarith)
    constructor <;> nlinarith [hb.1, hb.2]
  · refine ⟨by ring, ?_⟩
    have hb := piMulBound (c := (180 + ((b.deg : ℚ) + (b.min : ℚ) / 60 + b.sec / 3600)) / 180)
      (by linarith) (by linarith)
    constructor <;> nlinarith [hb.1, hb.2]

/-- Witness for the amended C5 at N 15°30'45" E. -/
theorem c5_toAngle_formula_witness :
    toAngle ⟨North, 15, 30, 45, East⟩ =
      (if (⟨North, 15, 30, 45, East⟩ : Bearing).primary = North then 0 else ratPi) +
        (if ((⟨North, 15, 30, 45, East⟩ : Bearing).primary = North ∧
              (⟨North, 15, 30, 45, East⟩ : Bearing).secondary = East) ∨
            ((⟨North, 15, 30, 45, East⟩ : Bearing).primary = South ∧
              (⟨North, 15, 30, 45, East⟩ : Bearing).secondary = West) then 1 else -1) *
          ((((15 : ℤ) : ℚ) + ((30 : ℤ) : ℚ) / 60 + (45 : ℚ) / 3600) * (ratPi / 180)) ∧
    -ratPi < toAngle ⟨North, 15, 30, 45, East⟩ ∧
    toAngle ⟨North, 15, 30, 45, East⟩ < 2 * ratPi :=
  c5_toAngle_formula ⟨North, 15, 30, 45, East⟩ (Or.inl rfl) (Or.inl rfl)
    (by decide) (by decide) (by decide) (by decide) (by norm_num) (by norm_num)

/-- C7 counterexample: at θ = −π/2 the code does not normalize into [0,2π)
(`math.Mod` keeps the sign of its first argument), and classifies the negative
remainder as NorthEast, not the NorthWest the claim's normalize-then-classify
policy predicts for 3π/2. -/
theorem c7_counterexample :
    directionFromAngle (-(ratPi / 2)) = NorthEast ∧
    goMod (-(ratPi / 2)) (2 * ratPi) < 0 ∧
    NorthEast ≠ NorthWest := by
  decide

/-- C7 (amended): for θ ≥ 0, `math.Mod(θ, 2π)` does land in [0,2π) and the
classification of the remainder follows the claimed boundary policy exactly;
for θ < 0 the remainder is ≤ 0 and the result is North for exact multiples of
2π and NorthEast otherwise. -/
theorem c7_directionFromAngle (q : ℚ) :
    (0 ≤ q → 0 ≤ goMod q (2 * ratPi) ∧ goMod q (2 * ratPi) < 2 * ratPi) ∧
    (goMod q (2 * ratPi) = 0 → directionFromAngle q = North) ∧
    (0 < goMod q (2 * ratPi) → goMod q (2 * ratPi) < ratPi / 4 →
      directionFromAngle q = NorthEast) ∧
    (goMod q (2 * ratPi) = ratPi / 4 → directionFromAngle q = East) ∧
    (ratPi / 4 < goMod q (2 * ratPi) → goMod q (2 * ratPi) < ratPi / 2 →
      directionFromAngle q = SouthEast) ∧
    (goMod q (2 * ratPi) = ratPi / 2 → directionFromAngle q = South) ∧
    (ratPi / 2 < goMod q (2 * ratPi) → goMod q (2 * ratPi) < ratPi * 3 / 4 →
      directionFromAngle q = SouthWest) ∧
    (goMod q (2 * ratPi) = ratPi * 3 / 4 → directionFromAngle q = West) ∧
    (ratPi * 3 / 4 < goMod q (2 * ratPi) → directionFromAngle q = NorthWest) ∧
    (q < 0 → goMod q (2 * ratPi) ≤ 0) ∧
    (q < 0 → goMod q (2 * ratPi) ≠ 0 → directionFromAngle q = NorthEast) := by
  have hpi := ratPi_pos
  refine ⟨?_, ?_, ?_, ?_, ?_, ?_, ?_, ?_, ?_, ?_, ?_⟩
  · intro h0
    exact goMod_bounds h0 (by linarith)
  · intro h
    unfold directionFromAngle
    rw [if_pos h]
  · intro h1 h2
    unfold directionFromAngle
    rw [if_neg (by linarith), if_pos h2]
  · intro h
    unfold directionFromAngle
    rw [if_neg (by rw [h]; positivity), if_neg (by rw [h]; exact lt_irrefl _), if_pos h]
  · intro h1 h2
    unfold directionFromAngle
    rw [if_neg (by linarith), if_neg (by linarith), if_neg (by linarith), if_pos h2]
  · intro h
    unfold directionFromAngle
    rw [if_neg (by rw [h]; positivity), if_neg (by rw [h]; linarith),
      if_neg (by rw [h]; intro hc; nlinarith), if_neg (by rw [h]; exact lt_irrefl _), if_pos h]
  · intro h1 h2
    unfold directionFromAngle
    rw [if_neg (by linarith), if_neg (by linarith), if_neg (by intro hc; nlinarith),
      if_neg (by linarith), if_neg (by linarith), if_pos h2]
  · intro h
    unfold directionFromAngle
    rw [if_neg (by rw [h]; positivity), if_neg (by rw [h]; linarith),
      if_neg (by rw [h]; intro hc; nlinarith), if_neg (by rw [h]; linarith),
      if_neg (by rw [h]; intro hc; nlinarith), if_neg (by rw [h]; exact lt_irrefl _), if_pos h]
  · intro h1
    unfold directionFromAngle
    rw [if_neg (by linarith), if_neg (by linarith), if_neg (by intro hc; nlinarith),
      if_neg (by linarith), if_neg (by intro hc; nlinarith), if_neg (by linarith),
      if_neg (by linarith)]
  · intro hq
    exact goMod_nonpos hq (by linarith)
  · intro hq hne
    have hle := @goMod_nonpos q (2 * ratPi) hq (by linarith)
    have hlt : goMod q (2 * ratPi) < 0 := lt_of_le_of_ne hle hne
    unfold directionFromAngle
    rw [if_neg hne, if_pos (by linarith)]

/-- Witness for the amended C7: π/8 classifies NorthEast and π/4 classifies
East. -/
theorem c7_directionFromAngle_witness :
    directionFromAngle (ratPi / 8) = NorthEast ∧ directionFromAngle (ratPi / 4) = East :=
  ⟨(c7_directionFromAngle (ratPi / 8)).2.2.1 (by decide) (by decide),
    (c7_directionFromAngle (ratPi / 4)).2.2.2.1 (by decide)⟩

/-- C6 counterexample: N 45°0'0" W is canonical-range, yet
`FromAngle(ToAngle(b))` returns S 45°0'0" W — the negative-angle reflection
`|θ|+π` of FromAngle sends the (N,W) quadrant to (S,W). -/
theorem c6_counterexample :
    bearingFromAngle (toAngle ⟨North, 45, 0, 0, West⟩) = ⟨South, 45, 0, 0, West⟩ ∧
    (bearingFromAngle (toAngle ⟨North, 45, 0, 0, West⟩)).primary ≠
      (⟨North, 45, 0, 0, West⟩ : Bearing).primary := by
  decide

theorem dmsBearing_exact (p snd : Direction) (d m : ℤ) (s : ℚ)
    (hm0 : 0 ≤ m) (hm : m < 60) (hs0 : 0 ≤ s) (hs : s < 60) :
    dmsBearing p snd (((d : ℚ) + (m : ℚ) / 60 + s / 3600) / 180 * ratPi) =
      ⟨p, d, m, s, snd⟩ := by
  have hpi := ratPi_pos
  have hm0q : (0 : ℚ) ≤ (m : ℚ) := by exact_mod_cast hm0
  have hmq : (m : ℚ) ≤ 59 := by exact_mod_cast Int.lt_add_one_iff.mp hm
  dsimp only [dmsBearing]
  have htot : ((d : ℚ) + (m : ℚ) / 60 + s / 3600) / 180 * ratPi * 180 / ratPi =
      (d : ℚ) + (m : ℚ) / 60 + s / 3600 := by
    field_simp
    ring
  rw [htot]
  have h1 : Rat.floor ((d : ℚ) + (m : ℚ) / 60 + s / 3600) = d := by
    rw [ratFloor_eq_intFloor]
    refine Int.floor_eq_iff.mpr ⟨by linarith, by linarith⟩
  rw [h1]
  have h2 : ((d : ℚ) + (m : ℚ) / 60 + s / 3600 - (d : ℚ)) * 60 = (m : ℚ) + s / 60 := by
    ring
  rw [h2]
  have h3 : Rat.floor ((m : ℚ) + s / 60) = m := by
    rw [ratFloor_eq_intFloor]
    refine Int.floor_eq_iff.mpr ⟨by linarith, by linarith⟩
  rw [h3]
  have h4 : ((m : ℚ) + s / 60 - (m : ℚ)) * 60 = s := by ring
  rw [h4]

/-- C6 (amended): FromAngle(ToAngle(b)) reproduces a canonical-range bearing
exactly (hence its seconds within 1e-6) whenever the bearing's quadrant and
magnitude survive FromAngle's branch selection: (N,E) with magnitude < 90°,
(S,E) with magnitude in (0°, 90°], or (S,W) with magnitude < 90°.  ((N,W)
bearings and the excluded boundary magnitudes do not round-trip, per the
counterexample.) -/
theorem c6_fromAngle_toAngle (b : Bearing)
    (hd0 : 0 ≤ b.deg) (hd : b.deg ≤ 90) (hm0 : 0 ≤ b.min) (hm : b.min < 60)
    (hs0 : 0 ≤ b.sec) (hs : b.sec < 60)
    (hq : (b.primary = North ∧ b.secondary = East ∧
            (b.deg : ℚ) + (b.min : ℚ) / 60 + b.sec / 3600 < 90) ∨
          (b.primary = South ∧ b.secondary = East ∧
            0 < (b.deg : ℚ) + (b.min : ℚ) / 60 + b.sec / 3600 ∧
            (b.deg : ℚ) + (b.min : ℚ) / 60 + b.sec / 3600 ≤ 90) ∨
          (b.primary = South ∧ b.secondary = West ∧
            (b.deg : ℚ) + (b.min : ℚ) / 60 + b.sec / 3600 < 90)) :
    bearingFromAngle (toAngle b) = b ∧
    (bearingFromAngle (toAngle b)).deg = b.deg ∧
    (bearingFromAngle (toAngle b)).min = b.min ∧
    |(bearingFromAngle (toAngle b)).sec - b.sec| ≤ 1 / 1000000 := by
  have hpi := ratPi_pos
  have hd0q : (0 : ℚ) ≤ (b.deg : ℚ) := by exact_mod_cast hd0
  have hm0q : (0 : ℚ) ≤ (b.min : ℚ) := by exact_mod_cast hm0
  have hx0 : (0 : ℚ) ≤ (b.deg : ℚ) + (b.min : ℚ) / 60 + b.sec / 3600 := by linarith
  have main : bearingFromAngle (toAngle b) = b := by
    rcases hq with ⟨hp, hsec, h90⟩ | ⟨hp, hsec, hx, h90⟩ | ⟨hp, hsec, h90⟩
    · -- (N, E), magnitude < 90
      have hval : toAngle b =
          ((b.deg : ℚ) + (b.min : ℚ) / 60 + b.sec / 3600) / 180 * ratPi := by
        unfold toAngle
        rw [hp, hsec]
        norm_num
      have ht0 : 0 ≤ toAngle b := by
        rw [hval]
        positivity
      have thalf : toAngle b < ratPi / 2 := by
        rw [hval]
        nlinarith
      simp only [bearingFromAngle]
      rw [if_neg (not_lt.mpr ht0), goMod_eq_self ht0 (by linarith) (by linarith),
        if_pos thalf, hval, dmsBearing_exact North East b.deg b.min b.sec hm0 hm hs0 hs,
        ← hp, ← hsec]
    · -- (S, E), magnitude in (0, 90]
      have hval : toAngle b =
          (180 - ((b.deg : ℚ) + (b.min : ℚ) / 60 + b.sec / 3600)) / 180 * ratPi := by
        unfold toAngle
        rw [hp, hsec, if_neg (by decide : ¬ (South = North)),
          if_neg (by decide : ¬ ((South = North ∧ East = East) ∨ (South = South ∧ East = West)))]
        ring
      have ht0 : 0 ≤ toAngle b := by
        rw [hval]
        have : (0:ℚ) ≤ 180 - ((b.deg : ℚ) + (b.min : ℚ) / 60 + b.sec / 3600) := by linarith
        positivity
      have htpi : toAngle b < ratPi := by
        rw [hval]
        nlinarith
      have thalf : ¬ toAngle b < ratPi / 2 := by
        rw [hval]
        push_neg
        nlinarith
      simp only [bearingFromAngle]
      rw [if_neg (not_lt.mpr ht0), goMod_eq_self ht0 (by linarith) (by linarith),
        if_neg thalf, if_pos htpi, hval]
      have harg : ratPi - (180 - ((b.deg : ℚ) + (b.min : ℚ) / 60 + b.sec / 3600)) / 180 * ratPi =
          ((b.deg : ℚ) + (b.min : ℚ) / 60 + b.sec / 3600) / 180 * ratPi := by
        ring
      rw [harg, dmsBearing_exact South East b.deg b.min b.sec hm0 hm hs0 hs, ← hp, ← hsec]
    · -- (S, W), magnitude < 90
      have hval : toAngle b =
          (180 + ((b.deg : ℚ) + (b.min : ℚ) / 60 + b.sec / 3600)) / 180 * ratPi := by
        unfold toAngle
        rw [hp, hsec, if_neg (by decide : ¬ (South = North)),
          if_pos (by decide : (South = North ∧ West = East) ∨ (South = South ∧ West = West))]
        ring
      have ht0 : 0 ≤ toAngle b := by
        rw [hval]
        positivity
      have htpi : ¬ toAngle b < ratPi := by
        rw [hval]
        push_neg
        nlinarith
      have thalf : ¬ toAngle b < ratPi / 2 := by
        rw [hval]
        push_neg
        nlinarith
      have t32 : toAngle b < ratPi * 3 / 2 := by
        rw [hval]
        nlinarith
      simp only [bearingFromAngle]
      rw [if_neg (not_lt.mpr ht0), goMod_eq_self ht0 (by linarith) (by nlinarith),
        if_neg thalf, if_neg htpi, if_pos t32, hval]
      have harg : (180 + ((b.deg : ℚ) + (b.min : ℚ) / 60 + b.sec / 3600)) / 180 * ratPi - ratPi =
          ((b.deg : ℚ) + (b.min : ℚ) / 60 + b.sec / 3600) / 180 * ratPi := by
        ring
      rw [harg, dmsBearing_exact South West b.deg b.min b.sec hm0 hm hs0 hs, ← hp, ← hsec]
  refine ⟨main, ?_, ?_, ?_⟩
  · rw [main]
  · rw [main]
  · rw [main]
    simp

/-- Witness for the amended C6 at S 45°10'10" E (the quadrant of the
repository's own round-trip test). -/
theorem c6_fromAngle_toAngle_witness :
    bearingFromAngle (toAngle ⟨South, 45, 10, 10, East⟩) = ⟨South, 45, 10, 10, East⟩ ∧
    (bearingFromAngle (toAngle ⟨South, 45, 10, 10, East⟩)).deg = (45 : ℤ) ∧
    (bearingFromAngle (toAngle ⟨South, 45, 10, 10, East⟩)).min = (10 : ℤ) ∧
    |(bearingFromAngle (toAngle ⟨South, 45, 10, 10, East⟩)).sec - (10 : ℚ)| ≤ 1 / 1000000 :=
  c6_fromAngle_toAngle ⟨South, 45, 10, 10, East⟩ (by decide) (by decide) (by decide)
    (by decide) (by norm_num) (by norm_num)
    (Or.inr (Or.inl ⟨rfl, rfl, by norm_num, by norm_num⟩))

theorem strAppend_ne_empty (s t : String) (h : s ≠ "") : s ++ t ≠ "" := by
  intro hc
  apply h
  have h2 := congrArg String.data hc
  rw [String.data_append] at h2
  rcases List.append_eq_nil.mp h2 with ⟨h3, _⟩
  cases s
  simp_all

theorem direction_describe_ne (d : Direction) : d.describe ≠ "" := by
  cases d <;> decide

/-- C9: on the closed data model every rendering operation is a total
function into nonempty strings — `Direction.Describe` on the eight
enumeration constants, `Bearing.Describe` on every bearing value, and
`Describe`/`Preamble` (at every previous-tangent argument) on every
constructed segment; none can fail. -/
theorem c9_render_total :
    (∀ d : Direction, d.describe ≠ "") ∧
    (∀ b : Bearing, bearingDescribe b ≠ "") ∧
    (∀ m : Mete, m.describe ≠ "" ∧ ∀ t : ℚ, m.preamble t ≠ "") := by
  have hb : ∀ b : Bearing, bearingDescribe b ≠ "" := by
    intro b
    unfold bearingDescribe
    repeat apply strAppend_ne_empty
    exact direction_describe_ne b.primary
  refine ⟨direction_describe_ne, hb, ?_⟩
  intro m
  constructor
  · cases m with
    | linear lm =>
      show linearDescribe lm ≠ ""
      unfold linearDescribe
      repeat apply strAppend_ne_empty
      exact direction_describe_ne _
    | arc am =>
      show arcDescribe am ≠ ""
      unfold arcDescribe
      repeat apply strAppend_ne_empty
      exact direction_describe_ne _
  · intro t
    cases m with
    | linear lm =>
      show linearPreamble lm t ≠ ""
      unfold linearPreamble
      split_ifs <;> decide
    | arc am =>
      show arcPreamble am t ≠ ""
      unfold arcPreamble
      split_ifs
      · repeat apply strAppend_ne_empty
        decide
      · repeat apply strAppend_ne_empty
        decide

/-- Rendering of an arc as C8 words it — the direction word taken from the
concavity angle `tangentAngle + rotation*centralAngle/2 + rotation*π/4` —
stated from the claim's words only for comparison with the source's
`arcDescribe`. -/
def claimArcDescribe (a : ArcMete) : String :=
  (directionFromAngle
      (a.tangent + rotVal a.dir * a.centralAngle / 2 + rotVal a.dir * ratPi / 4)).describe ++
    "ERLY ALONG SAID CURVE THROUGH A CENTRAL ANGLE OF " ++
    bearingDescribe (bearingFromAngle a.centralAngle) ++
    " AN ARC DISTANCE OF " ++ fmtF 2 (a.radius * a.centralAngle) ++ " " ++ a.unit

/-- C8 counterexample: for the arc (central π/6, radius 25, tangent 0,
clockwise) the code's direction word comes from the chord angle (NORTHEAST),
not from the concavity angle (SOUTHEAST) as the claim states, so the rendered
strings differ. -/
theorem c8_counterexample :
    arcDescribe ⟨ratPi / 6, 25, "feet", 0, .clockwise⟩ ≠
      claimArcDescribe ⟨ratPi / 6, 25, "feet", 0, .clockwise⟩ ∧
    directionFromAngle (chordAngle ⟨ratPi / 6, 25, "feet", 0, .clockwise⟩) = NorthEast ∧
    concavity ⟨ratPi / 6, 25, "feet", 0, .clockwise⟩ = SouthEast := by
  decide

/-- C8 (amended): render() is the template
`"{D}ERLY ALONG SAID CURVE THROUGH A CENTRAL ANGLE OF {C} AN ARC DISTANCE OF {L} {unit}"`
with C = Bearing.FromAngle(centralAngle).Describe() and L = radius*centralAngle
to two decimals, but with D the Direction of the chord angle
`tangentAngle + rotation*centralAngle/2` (the concavity direction appears only
in Preamble). -/
theorem c8_arcDescribe (a : ArcMete) :
    arcDescribe a =
      (directionFromAngle (a.tangent + rotVal a.dir * a.centralAngle / 2)).describe ++
        "ERLY ALONG SAID CURVE THROUGH A CENTRAL ANGLE OF " ++
        bearingDescribe (bearingFromAngle a.centralAngle) ++
        " AN ARC DISTANCE OF " ++ fmtF 2 (a.radius * a.centralAngle) ++ " " ++ a.unit := rfl

theorem metesText_split (p : ℚ) (ms : List Mete) (i : ℕ) (hi : i < ms.length) (j : ℕ) :
    metesText p j ms =
      metesText p j (ms.take i) ++ meteClause p (j + i) (ms.get ⟨i, hi⟩) ++
        metesText p (j + i + 1) (ms.drop (i + 1)) := by
  induction ms generalizing i j with
  | nil => cases hi
  | cons m rest ih =>
    cases i with
    | zero =>
      apply String.ext
      simp [metesText, String.data_append]
    | succ k =>
      have hk : k < rest.length := Nat.lt_of_succ_lt_succ hi
      have ihk := ih k hk (j + 1)
      apply String.ext
      simp only [metesText, List.take_succ_cons, List.drop_succ_cons, List.get_cons_succ,
        String.data_append, ihk]
      simp only [String.data_append, List.append_assoc]
      have e1 : j + 1 + k = j + (k + 1) := by omega
      rw [e1]

/-- C1: for every description, the template's `$prevtan` is initialized to 0.0
and never reassigned, so the clause emitted for every segment index i ≥ 1 is
exactly `"TO " ++ Metes[i].Preamble(0.0) ++ "; "` (followed by the THENCE
clause) — never a preamble evaluated at the preceding segment's Tangent(). -/
theorem c1_prevtan_frozen (d : Description) (h2 : 2 ≤ d.Metes.length)
    (i : ℕ) (h1 : 1 ≤ i) (hi : i < d.Metes.length) :
    rawDescribe d =
      cornerHead d ++ "; " ++
        (metesText 0 0 (d.Metes.take i) ++
          ("TO " ++ (d.Metes.get ⟨i, hi⟩).preamble 0 ++ "; " ++
            ("THENCE " ++ (d.Metes.get ⟨i, hi⟩).describe ++ " ")) ++
          metesText 0 (i + 1) (d.Metes.drop (i + 1))) ++
        closingText d := by
  have hsplit := metesText_split 0 d.Metes i hi 0
  simp only [Nat.zero_add] at hsplit
  have hcl : meteClause 0 i (d.Metes.get ⟨i, hi⟩) =
      "TO " ++ (d.Metes.get ⟨i, hi⟩).preamble 0 ++ "; " ++
        ("THENCE " ++ (d.Metes.get ⟨i, hi⟩).describe ++ " ") := by
    unfold meteClause
    rw [if_pos (by omega : i ≠ 0)]
    apply String.ext
    simp [String.data_append]
  unfold rawDescribe
  rw [hsplit, hcl]

/-- A concrete two-segment description for the C1 witness. -/
def dTwoMetes : Description :=
  ⟨"EASEMENT", "1", "", "SUB ADDITION", "", "PULASKI", "ARKANSAS", North, false,
    100, "SQUARE FEET", [Mete.linear ⟨0, 5, "feet"⟩, Mete.linear ⟨ratPi / 2, 7, "feet"⟩]⟩

/-- Witness for C1 at the two-segment description and index 1. -/
theorem c1_prevtan_frozen_witness :
    rawDescribe dTwoMetes =
      cornerHead dTwoMetes ++ "; " ++
        (metesText 0 0 (dTwoMetes.Metes.take 1) ++
          ("TO " ++ (dTwoMetes.Metes.get ⟨1, by decide⟩).preamble 0 ++ "; " ++
            ("THENCE " ++ (dTwoMetes.Metes.get ⟨1, by decide⟩).describe ++ " ")) ++
          metesText 0 2 (dTwoMetes.Metes.drop 2)) ++
        closingText dTwoMetes :=
  c1_prevtan_frozen dTwoMetes (by decide) 1 (by decide) (by decide)

theorem lastIdxOf_eq_none {c : Char} {l : List Char} (h : c ∉ l) :
    lastIdxOf c l = none := by
  induction l with
  | nil => rfl
  | cons a as ih =>
    simp only [List.mem_cons, not_or] at h
    unfold lastIdxOf
    rw [ih h.2, if_neg fun hac => h.1 hac.symm]

theorem lastIdxOf_none_not_mem {c : Char} {l : List Char}
    (h : lastIdxOf c l = none) : c ∉ l := by
  induction l with
  | nil => simp
  | cons a as ih =>
    unfold lastIdxOf at h
    cases hrec : lastIdxOf c as with
    | some j => rw [hrec] at h; cases h
    | none =>
      rw [hrec] at h
      by_cases hac : a = c
      · rw [if_pos hac] at h; cases h
      · simp only [List.mem_cons, not_or]
        exact ⟨fun hca => hac hca.symm, ih hrec⟩

theorem lastIdxOf_append_cons (A B : List Char) (c : Char) (h : c ∉ B) :
    lastIdxOf c (A ++ c :: B) = some A.length := by
  induction A with
  | nil =>
    simp only [List.nil_append, List.length_nil]
    unfold lastIdxOf
    rw [lastIdxOf_eq_none h, if_pos rfl]
  | cons a A ih =>
    simp only [List.cons_append, List.length_cons]
    unfold lastIdxOf
    rw [ih]

theorem lastIdxOf_spec {c : Char} {l : List Char} {i : ℕ}
    (h : lastIdxOf c l = some i) :
    ∃ A B, l = A ++ c :: B ∧ A.length = i ∧ c ∉ B := by
  induction l generalizing i with
  | nil => cases h
  | cons a as ih =>
    unfold lastIdxOf at h
    cases hrec : lastIdxOf c as with
    | some j =>
      rw [hrec] at h
      injection h with h
      obtain ⟨A, B, h1, h2, h3⟩ := ih hrec
      refine ⟨a :: A, B, by rw [h1, List.cons_append], ?_, h3⟩
      simp only [List.length_cons, h2]
      omega
    | none =>
      rw [hrec] at h
      by_cases hac : a = c
      · rw [if_pos hac] at h
        injection h with h
        exact ⟨[], as, by rw [hac, List.nil_append], by simpa using h, lastIdxOf_none_not_mem hrec⟩
      · rw [if_neg hac] at h
        cases h

theorem removeLastSemi_split (A B : String) (h : Char.ofNat 59 ∉ B.data) :
    removeLastSemi (A ++ String.mk [Char.ofNat 59] ++ B) = A ++ B := by
  have hdata : (A ++ String.mk [Char.ofNat 59] ++ B).data =
      A.data ++ Char.ofNat 59 :: B.data := by
    simp [String.data_append]
  unfold removeLastSemi
  rw [hdata, lastIdxOf_append_cons _ _ _ h]
  show String.mk ((A.data ++ Char.ofNat 59 :: B.data).take A.data.length ++
    (A.data ++ Char.ofNat 59 :: B.data).drop (A.data.length + 1)) = A ++ B
  have ht : (A.data ++ Char.ofNat 59 :: B.data).take A.data.length = A.data :=
    List.take_left A.data _
  have hsplit2 : A.data ++ Char.ofNat 59 :: B.data = (A.data ++ [Char.ofNat 59]) ++ B.data := by
    simp
  have hd2 : (A.data ++ Char.ofNat 59 :: B.data).drop (A.data.length + 1) = B.data := by
    rw [hsplit2]
    have hlen : (A.data ++ [Char.ofNat 59]).length = A.data.length + 1 := by simp
    rw [← hlen, List.drop_left]
  rw [ht, hd2]
  apply String.ext
  simp [String.data_append]

theorem removeLastSemi_count (s : String) (hmem : Char.ofNat 59 ∈ s.data) :
    (removeLastSemi s).data.count (Char.ofNat 59) + 1 = s.data.count (Char.ofNat 59) := by
  obtain ⟨i, hi⟩ : ∃ i, lastIdxOf (Char.ofNat 59) s.data = some i := by
    cases h : lastIdxOf (Char.ofNat 59) s.data with
    | none => exact absurd hmem (lastIdxOf_none_not_mem h)
    | some j => exact ⟨j, rfl⟩
  obtain ⟨A, B, hAB, hlen, hnot⟩ := lastIdxOf_spec hi
  unfold removeLastSemi
  rw [hi, hAB, ← hlen]
  show (String.mk ((A ++ Char.ofNat 59 :: B).take A.length ++
      (A ++ Char.ofNat 59 :: B).drop (A.length + 1))).data.count (Char.ofNat 59) + 1 =
    (A ++ Char.ofNat 59 :: B).count (Char.ofNat 59)
  have ht : (A ++ Char.ofNat 59 :: B).take A.length = A := List.take_left A _
  have hsplit2 : A ++ Char.ofNat 59 :: B = (A ++ [Char.ofNat 59]) ++ B := by simp
  have hd2 : (A ++ Char.ofNat 59 :: B).drop (A.length + 1) = B := by
    rw [hsplit2]
    have hlen2 : (A ++ [Char.ofNat 59]).length = A.length + 1 := by simp
    rw [← hlen2, List.drop_left]
  rw [ht, hd2]
  have hbeq : (Char.ofNat 59 == Char.ofNat 59) = true := by decide
  simp only [List.count_append, List.count_cons, hbeq, if_true]
  omega

theorem metesText_append_single (p : ℚ) (j : ℕ) (xs : List Mete) (y : Mete) :
    metesText p j (xs ++ [y]) = metesText p j xs ++ meteClause p (j + xs.length) y := by
  induction xs generalizing j with
  | nil =>
    apply String.ext
    simp [metesText, String.data_append]
  | cons x xs ih =>
    show metesText p j (x :: (xs ++ [y])) = _
    rw [show metesText p j (x :: (xs ++ [y])) =
      meteClause p j x ++ metesText p (j + 1) (xs ++ [y]) from rfl, ih (j + 1)]
    apply String.ext
    simp only [metesText, String.data_append, List.append_assoc, List.length_cons]
    have e : j + 1 + xs.length = j + (xs.length + 1) := by omega
    rw [e]

/-- A one-segment description whose Unit contains a semicolon. -/
def dSemiUnit : Description :=
  ⟨"EASEMENT", "1", "", "SUB ADDITION", "", "PULASKI", "ARKANSAS", North, false,
    100, "SQ;FT", [Mete.linear ⟨0, 5, "feet"⟩]⟩

/-- C2 counterexample: with one segment and a Unit containing a semicolon,
the deleted character is the Unit's semicolon in the closing line — the
corner-clause semicolon survives (first conjunct, where the corner's `"; "`
is intact and the closing line reads `SQFT`) — so the result is NOT the
string with the corner-clause semicolon removed (second conjunct). -/
theorem c2_counterexample :
    describe dSemiUnit =
      cornerHead dSemiUnit ++ "; " ++ metesText 0 0 dSemiUnit.Metes ++
        "TO THE POINT OF BEGINNING, CONTAINING 100 SQFT MORE OR LESS." ∧
    describe dSemiUnit ≠
      cornerHead dSemiUnit ++ " " ++ metesText 0 0 dSemiUnit.Metes ++ closingText dSemiUnit := by
  decide

/-- C2 (amended): Describe deletes exactly one character — the last ';'
searching from the end — so it always has exactly one fewer semicolon than
the raw template output; provided the text emitted after the final clause
semicolon (the last THENCE clause and the closing line) contains no
semicolon, that deleted semicolon is the one ending the final
`"TO {preamble}; "` clause when ≥ 2 segments exist, or the corner-clause
semicolon when exactly one segment exists. -/
theorem c2_describe_semicolon (d : Description) :
    describe d = removeLastSemi (rawDescribe d) ∧
    (describe d).data.count (Char.ofNat 59) + 1 =
      (rawDescribe d).data.count (Char.ofNat 59) ∧
    (∀ ms m, d.Metes = ms ++ [m] → 1 ≤ ms.length →
      Char.ofNat 59 ∉ (" THENCE " ++ m.describe ++ " " ++ closingText d).data →
      describe d =
        (cornerHead d ++ "; " ++ metesText 0 0 ms ++ ("TO " ++ m.preamble 0)) ++
          (" THENCE " ++ m.describe ++ " " ++ closingText d)) ∧
    (∀ m, d.Metes = [m] →
      Char.ofNat 59 ∉ (" THENCE " ++ m.describe ++ " " ++ closingText d).data →
      describe d = cornerHead d ++ (" THENCE " ++ m.describe ++ " " ++ closingText d)) := by
  have hsc : ("; " : String).data = Char.ofNat 59 :: (" " : String).data := by decide
  have hth : (" THENCE " : String).data = (" " : String).data ++ ("THENCE " : String).data := by
    decide
  refine ⟨rfl, ?_, ?_, ?_⟩
  · apply removeLastSemi_count
    unfold rawDescribe
    have h1 : Char.ofNat 59 ∈ ("; " : String).data := by decide
    simp only [String.data_append, List.mem_append]
    tauto
  · intro ms m hms hlen hnot
    have hraw : rawDescribe d =
        (cornerHead d ++ "; " ++ metesText 0 0 ms ++ ("TO " ++ m.preamble 0)) ++
          String.mk [Char.ofNat 59] ++ (" THENCE " ++ m.describe ++ " " ++ closingText d) := by
      unfold rawDescribe
      rw [hms, metesText_append_single]
      unfold meteClause
      rw [if_pos (by omega : 0 + ms.length ≠ 0)]
      apply String.ext
      simp only [String.data_append, List.append_assoc, hsc, hth, List.cons_append,
        List.nil_append]
    show removeLastSemi (rawDescribe d) = _
    rw [hraw, removeLastSemi_split _ _ hnot]
  · intro m hms hnot
    have hraw : rawDescribe d =
        cornerHead d ++ String.mk [Char.ofNat 59] ++
          (" THENCE " ++ m.describe ++ " " ++ closingText d) := by
      unfold rawDescribe
      rw [hms]
      show cornerHead d ++ "; " ++ (meteClause 0 0 m ++ metesText 0 1 []) ++ closingText d = _
      unfold meteClause
      rw [if_neg (by omega : ¬ (0 : ℕ) ≠ 0)]
      apply String.ext
      simp only [String.data_append, List.append_assoc, hsc, hth, List.cons_append,
        List.nil_append, metesText, String.data]
    show removeLastSemi (rawDescribe d) = _
    rw [hraw, removeLastSemi_split _ _ hnot]

/-- A concrete one-segment description (semicolon-free fields) for the C2
witness. -/
def dOneMete : Description :=
  ⟨"EASEMENT", "1", "", "SUB ADDITION", "", "PULASKI", "ARKANSAS", North, false,
    100, "SQUARE FEET", [Mete.linear ⟨0, 5, "feet"⟩]⟩

/-- Witness for the amended C2: on the one-segment description the corner
semicolon is the one deleted. -/
theorem c2_describe_semicolon_witness :
    describe dOneMete =
      cornerHead dOneMete ++
        (" THENCE " ++ (Mete.linear ⟨0, 5, "feet"⟩).describe ++ " " ++ closingText dOneMete) :=
  (c2_describe_semicolon dOneMete).2.2.2 (Mete.linear ⟨0, 5, "feet"⟩) rfl (by decide)

theorem takeWhile_all (p : Char → Bool) (l : List Char) :
    (l.takeWhile p).all p = true := by
  induction l with
  | nil => rfl
  | cons a as ih =>
    unfold List.takeWhile
    cases hp : p a with
    | true => simp [List.all_cons, hp, ih]
    | false => rfl

theorem drop_takeWhile_length (p : Char → Bool) (l : List Char) :
    l.drop (l.takeWhile p).length = l.dropWhile p := by
  induction l with
  | nil => rfl
  | cons a as ih =>
    unfold List.takeWhile List.dropWhile
    cases hp : p a with
    | true => simpa using ih
    | false => rfl

theorem takeWhile_dropWhile_nil (p : Char → Bool) (l : List Char) :
    (l.dropWhile p).takeWhile p = [] := by
  induction l with
  | nil => rfl
  | cons a as ih =>
    unfold List.dropWhile
    cases hp : p a with
    | true => simpa [hp] using ih
    | false => simp [List.takeWhile, hp]

theorem digits1_spec {l ds rest : List Char} (h : digits1 l = some (ds, rest)) :
    (ds ≠ [] ∧ ds.all isDigit = true) ∧ rest.takeWhile isDigit = [] := by
  unfold digits1 at h
  by_cases he : (l.takeWhile isDigit).isEmpty
  · rw [if_pos he] at h; cases h
  · rw [if_neg he] at h
    injection h with h
    injection h with h1 h2
    subst h1
    subst h2
    refine ⟨⟨fun hc => he (by rw [hc]; rfl), takeWhile_all isDigit l⟩, ?_⟩
    rw [drop_takeWhile_length, takeWhile_dropWhile_nil]

theorem takeWhile_append_all {p : Char → Bool} {A : List Char} (B : List Char)
    (hA : A.all p = true) : (A ++ B).takeWhile p = A ++ B.takeWhile p := by
  induction A with
  | nil => rfl
  | cons a as ih =>
    simp only [List.all_cons, Bool.and_eq_true] at hA
    simp [List.takeWhile, hA.1, ih hA.2]

theorem takeWhile_all_self {p : Char → Bool} {A : List Char}
    (hA : A.all p = true) : A.takeWhile p = A := by
  have h := takeWhile_append_all (p := p) [] hA
  simpa using h

theorem secShape_build {s1 s2 : List Char} (dotted : Prop) [Decidable dotted]
    (h1 : s1 ≠ []) (ha1 : s1.all isDigit = true) (ha2 : s2.all isDigit = true)
    (hnd : ¬ dotted → s2 = []) :
    secShape (s1 ++ (if dotted then ['.'] else []) ++ s2) = true := by
  by_cases hd : dotted
  · rw [if_pos hd]
    unfold secShape
    rw [show s1 ++ ['.'] ++ s2 = s1 ++ '.' :: s2 by simp,
      takeWhile_append_all ('.' :: s2) ha1,
      show ('.' :: s2).takeWhile isDigit = [] from rfl, List.append_nil]
    dsimp only
    rw [List.drop_left s1 ('.' :: s2)]
    simp [List.isEmpty_iff, h1, ha2]
  · rw [if_neg hd, hnd hd, List.append_nil, List.append_nil]
    unfold secShape
    rw [takeWhile_all_self ha1]
    simp [List.isEmpty_iff, h1]

theorem matchBearingAt_caps {l : List Char} {m : BearingMatch}
    (h : matchBearingAt l = some m) :
    (m.degStr ≠ [] ∧ m.degStr.all isDigit = true) ∧
    (m.minStr ≠ [] ∧ m.minStr.all isDigit = true) ∧
    secShape m.secStr = true := by
  unfold matchBearingAt at h
  simp only [bind, Option.bind_eq_some, pure, Option.some.injEq] at h
  obtain ⟨⟨c1, l1⟩, h1, ⟨dg, l2⟩, h2, ⟨cD, l3⟩, h3, ⟨mn, l4⟩, h4, ⟨cM, l5⟩, h5,
    ⟨s1, l6⟩, h6, ⟨cS, l9⟩, h7, ⟨c5, l10⟩, h8, hm⟩ := h
  obtain ⟨⟨hdg1, hdg2⟩, _⟩ := digits1_spec h2
  obtain ⟨⟨hmn1, hmn2⟩, _⟩ := digits1_spec h4
  obtain ⟨⟨hs1, hs2⟩, hrem⟩ := digits1_spec h6
  subst hm
  refine ⟨⟨hdg1, hdg2⟩, ⟨hmn1, hmn2⟩, ?_⟩
  show secShape
    ((s1 ++ if l6.head? = some '.' then ['.'] else []) ++
      List.takeWhile isDigit (if l6.head? = some '.' then l6.drop 1 else l6)) = true
  apply secShape_build (l6.head? = some '.') hs1 hs2 (takeWhile_all _ _)
  intro hd
  rw [if_neg hd]
  exact hrem

theorem findBearingMatch_caps {l : List Char} {m : BearingMatch}
    (h : findBearingMatch l = some m) :
    (m.degStr ≠ [] ∧ m.degStr.all isDigit = true) ∧
    (m.minStr ≠ [] ∧ m.minStr.all isDigit = true) ∧
    secShape m.secStr = true := by
  induction l with
  | nil => cases h
  | cons c rest ih =>
    unfold findBearingMatch at h
    cases hat : matchBearingAt (c :: rest) with
    | some m2 =>
      rw [hat] at h
      injection h with h
      subst h
      exact matchBearingAt_caps hat
    | none =>
      rw [hat] at h
      exact ih h

/-- C10 counterexample: the preprocessed input `"|1D2M3SE"` does contain an
occurrence of the bearing pattern (the class `[N|S]` also matches a literal
bar), yet FromString rejects it — so FromString does NOT succeed on every
string containing a pattern occurrence. -/
theorem c10_counterexample :
    (findBearingMatch (preprocessBearingStr "|1D2M3SE")).isSome = true ∧
    bearingFromString "|1D2M3SE" = .error "Invalid primary direction: |" := by
  decide

/-- C10 (amended): FromString matching is unanchored — it applies the
leftmost regex match of the whitespace-stripped uppercased input, ignoring
arbitrary text before and after that match — and succeeds whenever the
leftmost match is well formed: its primary letter is N or S (not the literal
bar the class also admits), its secondary is E or W, its deg/min captures fit
in an int64 and its sec capture is below the float64 overflow threshold. -/
theorem c10_fromString_leftmost (s : String) (m : BearingMatch)
    (hm : findBearingMatch (preprocessBearingStr s) = some m)
    (hp : m.primary = 'N' ∨ m.primary = 'S')
    (hsd : m.secondary = 'E' ∨ m.secondary = 'W')
    (hdeg : (digitsVal m.degStr : ℤ) ≤ 9223372036854775807)
    (hmin : (digitsVal m.minStr : ℤ) ≤ 9223372036854775807)
    (hsec : secVal m.secStr < floatOverflowMin) :
    bearingFromString s =
      .ok ⟨if m.primary = 'N' then North else South,
        digitsVal m.degStr, digitsVal m.minStr, secVal m.secStr,
        if m.secondary = 'E' then East else West⟩ := by
  obtain ⟨⟨hdg1, hdg2⟩, ⟨hmn1, hmn2⟩, hsh⟩ := findBearingMatch_caps hm
  have hda : goAtoi m.degStr = some ((digitsVal m.degStr : ℤ)) := by
    unfold goAtoi
    rw [if_neg (by simp [List.isEmpty_iff, hdg1, hdg2]), if_pos hdeg]
  have hmna : goAtoi m.minStr = some ((digitsVal m.minStr : ℤ)) := by
    unfold goAtoi
    rw [if_neg (by simp [List.isEmpty_iff, hmn1, hmn2]), if_pos hmin]
  have hsa : goParseFloat m.secStr = some (secVal m.secStr) := by
    unfold goParseFloat
    rw [if_pos hsh, if_pos hsec]
  rcases hp with hp | hp <;> rcases hsd with hsd | hsd <;>
    simp only [bearingFromString, hm, hp, hsd, hda, hmna, hsa,
      show directionFromString (String.mk ['N']) = some North from rfl,
      show directionFromString (String.mk ['S']) = some South from rfl,
      show directionFromString (String.mk ['E']) = some East from rfl,
      show directionFromString (String.mk ['W']) = some West from rfl] <;>
    rfl

/-- Witness for the amended C10: the repository test input with trailing
`", 5.00 feet"` still parses to S 87°30'54" E. -/
theorem c10_fromString_leftmost_witness :
    bearingFromString ("South 87°30" ++ minuteMark ++ "54\" East, 5.00 feet") =
      .ok ⟨South, 87, 30, 54, East⟩ := by
  have h := c10_fromString_leftmost ("South 87°30" ++ minuteMark ++ "54\" East, 5.00 feet")
    ⟨'S', ['8', '7'], ['3', '0'], ['5', '4'], 'E'⟩ (by decide) (Or.inr rfl) (Or.inl rfl)
    (by decide) (by decide) (by decide)
  exact h.trans (by decide)
